import Mathlib

/-!
Shallow embedding of the blockchain ledger utility of
`src/utils/blockchain.js` (class `BlockchainUtils`), together with proofs
settling the specification claims about it.

JavaScript objects with optional fields are embedded as structures with
`Option`-typed fields (`none` = absent/undefined/null); JS numbers that the
module only ever uses as integers (`Date.now()`, indices, nonces) are
embedded as `Int`/`Nat`; the mutable singleton state is passed explicitly.
The do-while proof-of-work search is embedded with explicit fuel (`none`
means the search has not finished within the given iteration budget, which
models non-termination when it holds for every budget).
-/

/-- Ledger-level transaction record (the loosely structured JS object the
module receives and decorates).  `none` in an `Option` field models a field
that is absent (JS `undefined`/`null`). -/
structure Transaction where
  id : Option String := none
  type : Option String := none
  signedBy : Option String := none
  /-- Opaque payload; embedded as its JS string value / serialized form. -/
  data : Option String := none
  metadata : Option String := none
  hash : Option String := none
  timestamp : Int := 0
  blockNumber : Option Int := none
  status : Option String := none
deriving Repr, DecidableEq

/-- One sealed block, exactly the object literal built in
`createGenesisBlock` and `mineBlock` (src/utils/blockchain.js:25-32, 68-75). -/
structure Block where
  index : Int
  timestamp : Int
  transactions : List Transaction
  previousHash : String
  hash : String
  nonce : Int
deriving Repr, DecidableEq

/-- The mutable state of the `BlockchainUtils` singleton
(src/utils/blockchain.js:11-19).  The `nodes` set is never read or written
by any operation and is omitted. -/
structure BlockchainState where
  difficulty : Nat
  pendingTransactions : List Transaction
  chain : List Block
deriving Repr, DecidableEq

/-- JS truthiness of a string-or-absent value: `!x` is true exactly when the
field is absent (`undefined`/`null`) or the empty string. -/
def truthy : Option String → Bool
  | none => false
  | some s => s ≠ ""

/-- Embeds `calculateHash` (src/utils/blockchain.js:40-43).  The source
builds a data string and evaluates
`crypto.createHash('sha256').update(data).toString('hex')`.  In Node.js,
`Hash.prototype.update` returns the `Hash` object itself and `Hash` does not
override `toString`, so the call resolves to `Object.prototype.toString`
(the 'hex' argument is ignored) and evaluates to the constant string
"[object Object]": the digest is never taken and the result is independent
of every argument.  (The intended call was `.digest('hex')`.) -/
def calculateHash (_index _timestamp : Int) (_transactions : List Transaction)
    (_previousHash : String) (_nonce : Int) : String :=
  "[object Object]"

/-- Embeds `generateTransactionHash` (src/utils/blockchain.js:149-152): the
same `crypto.createHash('sha256').update(data).toString('hex')` pattern as
`calculateHash`, hence the same constant result, independent of the
transaction and of the `Date.now()` value mixed into the data string. -/
def generateTransactionHash (_t : Transaction) (_now : Int) : String :=
  "[object Object]"

/-- Embeds `createGenesisBlock` (src/utils/blockchain.js:24-35); `now` is
the `Date.now()` instant (the source samples the clock twice, once for the
stored `timestamp` and once inside the hash call; the hash result does not
depend on it, so one parameter suffices). -/
def createGenesisBlock (now : Int) : Block :=
  { index := 0
    timestamp := now
    transactions := []
    previousHash := "0"
    hash := calculateHash 0 now [] "0" 0
    nonce := 0 }

/-- The state built by the constructor (src/utils/blockchain.js:11-19):
difficulty 4, empty pool, and the chain holding only the genesis block. -/
def initialState (now : Int) : BlockchainState :=
  { difficulty := 4
    pendingTransactions := []
    chain := [createGenesisBlock now] }

/-- Embeds `getLatestBlock` (src/utils/blockchain.js:48-50):
`this.chain[this.chain.length - 1]`, which is `undefined` (`none`) on an
empty chain. -/
def getLatestBlock (s : BlockchainState) : Option Block :=
  s.chain.getLast?

/-- The string `'0'.repeat(d)`. -/
def repeatZeros (d : Nat) : String :=
  String.mk (List.replicate d '0')

/-- The do-while proof-of-work search of `mineBlock`
(src/utils/blockchain.js:59-66), with explicit fuel.  Each iteration
computes the hash at the current `nonce` and then increments `nonce`, so on
success the returned nonce is one greater than the nonce the returned hash
was computed at.  The loop exits when
`newHash.substring(0, difficulty) === '0'.repeat(difficulty)`. -/
def findNonce (index timestamp : Int) (transactions : List Transaction)
    (previousHash : String) (difficulty : Nat) : Nat → Int → Option (String × Int)
  | 0, _ => none
  | fuel + 1, nonce =>
    let newHash := calculateHash index timestamp transactions previousHash nonce
    if newHash.take difficulty = repeatZeros difficulty then
      some (newHash, nonce + 1)
    else
      findNonce index timestamp transactions previousHash difficulty fuel (nonce + 1)

/-- Embeds `mineBlock` (src/utils/blockchain.js:55-79).  `none` means either
that the chain was empty (the source would crash dereferencing
`previousBlock.index`) or that the proof-of-work loop did not exit within
`fuel` iterations.  Note that the source never touches
`this.pendingTransactions` and never assigns `blockNumber` on the sealed
transactions: it only appends the new block. -/
def mineBlock (s : BlockchainState) (transactions : List Transaction)
    (now : Int) (fuel : Nat) : Option (BlockchainState × Block) :=
  match getLatestBlock s with
  | none => none
  | some previousBlock =>
    let newIndex := previousBlock.index + 1
    match findNonce newIndex now transactions previousBlock.hash s.difficulty fuel 0 with
    | none => none
    | some (newHash, nonce) =>
      let newBlock : Block :=
        { index := newIndex
          timestamp := now
          transactions := transactions
          previousHash := previousBlock.hash
          hash := newHash
          nonce := nonce }
      some ({ s with chain := s.chain ++ [newBlock] }, newBlock)

/-- Embeds `verifySignature` (src/utils/blockchain.js:125-129): the stub
accepts every signature. -/
def verifySignature (_t : Transaction) : Bool :=
  true

/-- Embeds `transactionExists` (src/utils/blockchain.js:134-144): scans the
sealed blocks and then the pool for a transaction whose `hash` field is
`===` the queried value (comparing `Option String` values mirrors the JS
`===` on string-or-undefined values: `undefined === undefined` is true). -/
def transactionExists (s : BlockchainState) (h : Option String) : Bool :=
  s.chain.any (fun b => b.transactions.any (fun tx => tx.hash == h)) ||
    s.pendingTransactions.any (fun tx => tx.hash == h)

/-- Embeds `isValidTransaction` (src/utils/blockchain.js:103-120): requires
truthy `type`, `signedBy` and `data`, a verifiable signature, and that the
transaction's current `hash` field (still unassigned at the call site in
`addTransaction`) does not already exist. -/
def isValidTransaction (s : BlockchainState) (t : Transaction) : Bool :=
  if !truthy t.type || !truthy t.signedBy || !truthy t.data then false
  else if !verifySignature t then false
  else if transactionExists s t.hash then false
  else true

/-- Embeds `addTransaction` (src/utils/blockchain.js:84-98): validates the
incoming record first (`none` models the thrown `Error('Transaction
invalide')`), and only then assigns `hash`, `timestamp` and
`blockNumber = null` and appends the record to the pool. -/
def addTransaction (s : BlockchainState) (t : Transaction) (now : Int) :
    Option (BlockchainState × Transaction) :=
  if !isValidTransaction s t then none
  else
    let t' := { t with
      hash := some (generateTransactionHash t now)
      timestamp := now
      blockNumber := none }
    some ({ s with pendingTransactions := s.pendingTransactions ++ [t'] }, t')

/-- Embeds `createAdminTransaction` (src/utils/blockchain.js:284-296): wraps
the payload in a fresh record (no `hash`, no `blockNumber` field) and feeds
it to `addTransaction`; `id` stands for the generated `uuidv4()`. -/
def createAdminTransaction (s : BlockchainState) (type data signedBy metadata id : String)
    (now : Int) : Option (BlockchainState × Transaction) :=
  addTransaction s
    { id := some id
      type := some type
      data := some data
      signedBy := some signedBy
      metadata := some metadata
      timestamp := now
      status := some "pending" } now

/-- The record returned by `getTransactionStatus` for a found transaction
(src/utils/blockchain.js:162-168, 175-181). -/
structure TxStatus where
  status : String
  blockNumber : Option Int
  confirmations : Int
  timestamp : Int
  hash : Option String
deriving Repr, DecidableEq

/-- Embeds `getTransactionStatus` (src/utils/blockchain.js:157-185): first
block (in chain order) containing a transaction with the queried hash wins
and yields a `confirmed` record; otherwise the pool is scanned for a
`pending` record; otherwise the JS `null` (`none`) is returned. -/
def getTransactionStatus (s : BlockchainState) (h : String) : Option TxStatus :=
  match s.chain.find? (fun b => (b.transactions.find? (fun tx => tx.hash == some h)).isSome) with
  | some b =>
    some { status := "confirmed"
           blockNumber := some b.index
           confirmations := (s.chain.length : Int) - b.index
           timestamp := b.timestamp
           hash := some b.hash }
  | none =>
    match s.pendingTransactions.find? (fun tx => tx.hash == some h) with
    | some tx =>
      some { status := "pending"
             blockNumber := none
             confirmations := 0
             timestamp := tx.timestamp
             hash := none }
    | none => none

/-- The body of the `isChainValid` loop (src/utils/blockchain.js:255-276)
walking the pairs `(chain[i-1], chain[i])` in order: first a `previousHash`
linkage check, then recomputation of the stored hash from the stored
fields. -/
def chainValidFrom : Block → List Block → Bool
  | _, [] => true
  | prev, cur :: rest =>
    if cur.previousHash ≠ prev.hash then false
    else if cur.hash ≠ calculateHash cur.index cur.timestamp cur.transactions
        cur.previousHash cur.nonce then false
    else chainValidFrom cur rest

/-- Embeds `isChainValid` (src/utils/blockchain.js:254-279): the loop starts
at index 1, so a chain with at most one block is vacuously valid. -/
def isChainValid (s : BlockchainState) : Bool :=
  match s.chain with
  | [] => true
  | b :: rest => chainValidFrom b rest

/-- Embeds `cleanupOldPendingTransactions` (src/utils/blockchain.js:416-430):
keeps the pool entries with `timestamp > cutoff` and returns the new state
together with the removed count. -/
def cleanupOldPendingTransactions (s : BlockchainState) (maxAgeInHours now : Int) :
    BlockchainState × Int :=
  let cutoffTime := now - maxAgeInHours * 60 * 60 * 1000
  let remaining := s.pendingTransactions.filter (fun tx => cutoffTime < tx.timestamp)
  ({ s with pendingTransactions := remaining },
    (s.pendingTransactions.length : Int) - (remaining.length : Int))

/-- The snapshot record consumed by `importBlockchain` and produced by
`exportBlockchain` (src/utils/blockchain.js:435-443).  `chain := none`
models a snapshot whose `chain` field is missing or not an array (the two
cases rejected by `!data.chain || !Array.isArray(data.chain)`; note a
present empty array is truthy and is *not* rejected).  `pendingTransactions`
and `difficulty` are optional; `none` and `some 0` for `difficulty` are the
JS-falsy cases of `data.difficulty || this.difficulty`. -/
structure Snapshot where
  chain : Option (List Block) := none
  pendingTransactions : Option (List Transaction) := none
  difficulty : Option Nat := none
  exportedAt : Int := 0
  version : String := ""
deriving Repr, DecidableEq

/-- Embeds `exportBlockchain` (src/utils/blockchain.js:435-443). -/
def exportBlockchain (s : BlockchainState) (now : Int) : Snapshot :=
  { chain := some s.chain
    pendingTransactions := some s.pendingTransactions
    difficulty := some s.difficulty
    exportedAt := now
    version := "1.0.0" }

/-- The two errors `importBlockchain` can throw
(src/utils/blockchain.js:450, 460): `invalidFormat` is the thrown
`Error('Format de blockchain invalide')` and `corruptedChain` the thrown
`Error('Chaine importee corrompue')`. -/
inductive ImportError where
  | invalidFormat
  | corruptedChain
deriving Repr, DecidableEq

/-- The linkage-only validation loop of `importBlockchain`
(src/utils/blockchain.js:455-462): for i = 1.. it checks
`chain[i].previousHash === chain[i-1].hash` and nothing else — in
particular it never recomputes a block hash. -/
def linkageOk : List Block → Bool
  | a :: b :: rest => (b.previousHash == a.hash) && linkageOk (b :: rest)
  | _ => true

/-- Embeds `importBlockchain` (src/utils/blockchain.js:448-471) as a
stateful computation over the singleton state, keeping the source's
statement order: both throws happen before any field of `this` is assigned,
and on success chain, pool and difficulty are replaced wholesale
(`data.pendingTransactions || []`, `data.difficulty || this.difficulty`). -/
def importBlockchain (data : Snapshot) : EStateM ImportError BlockchainState Bool := do
  match data.chain with
  | none => throw ImportError.invalidFormat
  | some tempChain =>
    if !linkageOk tempChain then
      throw ImportError.corruptedChain
    else
      modify fun s =>
        { s with
          chain := tempChain
          pendingTransactions := data.pendingTransactions.getD []
          difficulty :=
            match data.difficulty with
            | some d => if d ≠ 0 then d else s.difficulty
            | none => s.difficulty }
      pure true

/-- The states reachable from the constructor by the module's mutating
operations (submission, mining, cleanup, import — both a successful import
and one that throws; `exportBlockchain` does not mutate). -/
inductive Reachable : BlockchainState → Prop where
  | init (now : Int) : Reachable (initialState now)
  | addTx {s s' : BlockchainState} {t t' : Transaction} {now : Int} :
      Reachable s → addTransaction s t now = some (s', t') → Reachable s'
  | mine {s s' : BlockchainState} {txs : List Transaction} {b : Block} {now : Int} {fuel : Nat} :
      Reachable s → mineBlock s txs now fuel = some (s', b) → Reachable s'
  | cleanup {s : BlockchainState} {maxAge now : Int} :
      Reachable s → Reachable (cleanupOldPendingTransactions s maxAge now).1
  | importOk {s s' : BlockchainState} {d : Snapshot} {r : Bool} :
      Reachable s → (importBlockchain d).run s = EStateM.Result.ok r s' → Reachable s'
  | importErr {s s' : BlockchainState} {d : Snapshot} {e : ImportError} :
      Reachable s → (importBlockchain d).run s = EStateM.Result.error e s' → Reachable s'

/-- Spec-side format predicate (§4.1 of the spec): a lowercase hexadecimal
string of the 64-character length of a hex-encoded SHA-256 digest.  Used
only to compare the actual output of the hash engine against the format the
spec claims for it. -/
def isSha256HexString (s : String) : Bool :=
  s.length = 64 && s.data.all fun c => c.isDigit || ('a' ≤ c && c ≤ 'f')

/-- Reachability restricted so that every successful import carries a
non-empty snapshot chain (the minimal restriction forced by the
empty-snapshot counterexample to the never-empty-chain claim). -/
inductive ReachableNE : BlockchainState → Prop where
  | init (now : Int) : ReachableNE (initialState now)
  | addTx {s s' : BlockchainState} {t t' : Transaction} {now : Int} :
      ReachableNE s → addTransaction s t now = some (s', t') → ReachableNE s'
  | mine {s s' : BlockchainState} {txs : List Transaction} {b : Block} {now : Int} {fuel : Nat} :
      ReachableNE s → mineBlock s txs now fuel = some (s', b) → ReachableNE s'
  | cleanup {s : BlockchainState} {maxAge now : Int} :
      ReachableNE s → ReachableNE (cleanupOldPendingTransactions s maxAge now).1
  | importOk {s s' : BlockchainState} {d : Snapshot} {r : Bool} {c : List Block} :
      ReachableNE s → d.chain = some c → c ≠ [] →
      (importBlockchain d).run s = EStateM.Result.ok r s' → ReachableNE s'
  | importErr {s s' : BlockchainState} {d : Snapshot} {e : ImportError} :
      ReachableNE s → (importBlockchain d).run s = EStateM.Result.error e s' → ReachableNE s'

/-- A snapshot whose `chain` field is a present but empty array: it passes
both import checks (`[]` is truthy, `Array.isArray([])` holds, and the
linkage loop over indices 1..length-1 is vacuous). -/
def emptySnapshot : Snapshot :=
  { chain := some [] }

/-- The state produced by importing `emptySnapshot` into a fresh ledger:
the chain has been replaced by the empty array. -/
def importedEmptyState : BlockchainState :=
  { difficulty := 4
    pendingTransactions := []
    chain := [] }

/-- A pool transaction used to exercise `mineBlock`'s (non-)interaction
with the pending pool. -/
def poolTx : Transaction :=
  { type := some "project_submission"
    signedBy := some "user1"
    data := some "payload"
    hash := some "h1"
    timestamp := 1
    blockNumber := none }

/-- A ledger state holding `poolTx` in the pool, with difficulty 0 — the
only difficulty at which the proof-of-work loop can exit, letting the rest
of `mineBlock`'s behaviour be observed. -/
def poolState : BlockchainState :=
  { difficulty := 0
    pendingTransactions := [poolTx]
    chain := [createGenesisBlock 0] }

/-- A sealed transaction for the tamper-detection scenario. -/
def sealedTx : Transaction :=
  { type := some "project_action"
    signedBy := some "user2"
    data := some "original"
    hash := some "h2"
    timestamp := 2
    blockNumber := none }

/-- `sealedTx` with its payload retroactively edited. -/
def tamperedTx : Transaction :=
  { sealedTx with data := some "tampered" }

/-- Middle block of the tamper-detection chain, holding `sealedTx`. -/
def middleBlock : Block :=
  { index := 1
    timestamp := 10
    transactions := [sealedTx]
    previousHash := (createGenesisBlock 0).hash
    hash := calculateHash 1 10 [sealedTx] (createGenesisBlock 0).hash 3
    nonce := 3 }

/-- Tip block of the tamper-detection chain. -/
def tipBlock : Block :=
  { index := 2
    timestamp := 20
    transactions := []
    previousHash := middleBlock.hash
    hash := calculateHash 2 20 [] middleBlock.hash 8
    nonce := 8 }

/-- A three-block ledger state on which `isChainValid` returns true. -/
def tamperBaseState : BlockchainState :=
  { difficulty := 4
    pendingTransactions := []
    chain := [createGenesisBlock 0, middleBlock, tipBlock] }

/-- `tamperBaseState` with the transaction payload inside the (non-latest)
middle block mutated, every other field left intact. -/
def tamperedState : BlockchainState :=
  { difficulty := 4
    pendingTransactions := []
    chain := [createGenesisBlock 0, { middleBlock with transactions := [tamperedTx] }, tipBlock] }

/-- A ledger state with one pending transaction, used to exercise the
`pending` branch of `getTransactionStatus`. -/
def pendingLookupState : BlockchainState :=
  { difficulty := 4
    pendingTransactions := [poolTx]
    chain := [createGenesisBlock 0] }

/-- A snapshot with no `chain` field at all (`{}` in JS): rejected by the
`!data.chain` guard. -/
def noChainSnapshot : Snapshot := {}

/-! ### Helper lemmas -/

/-- At the configured difficulty 4, no iteration of the proof-of-work loop
can ever exit: every candidate hash is the constant "[object Object]",
whose 4-character prefix is never "0000". -/
theorem findNonce_difficulty_four (index timestamp : Int) (txs : List Transaction)
    (ph : String) : ∀ (fuel : Nat) (nonce : Int),
    findNonce index timestamp txs ph 4 fuel nonce = none := by
  intro fuel
  induction fuel with
  | zero => intro nonce; rfl
  | succ n ih =>
    intro nonce
    simp only [findNonce, calculateHash]
    rw [if_neg (by decide)]
    exact ih (nonce + 1)

/-- C1.  The claim asserts that mining preserves the chain invariant and
that `isChainValid` holds on chains built solely by mining.  In the code no
chain is ever built by mining: from the freshly constructed ledger
(difficulty 4) the proof-of-work loop of `mineBlock` never exits, for any
iteration budget, because `calculateHash` returns the constant
"[object Object]" (the `.toString('hex')` slip), which never has four
leading zeros.  No `mineBlock` call ever completes, so the post-mining
states the claim describes cannot arise. -/
theorem mineBlock_from_fresh_ledger_never_completes
    (t : Int) (txs : List Transaction) (now : Int) (fuel : Nat) :
    mineBlock (initialState t) txs now fuel = none := by
  simp [mineBlock, initialState, getLatestBlock, findNonce_difficulty_four]

/-- C6.  The claim asserts that `mineBlock(txs)` grows the chain by one
with a difficulty-respecting hash.  At the configured difficulty 4 (the
constructor's value), `mineBlock` never completes on any state, for any
iteration budget: the constant candidate hash never acquires four leading
zeros, so there is no "after `mineBlock(txs)`". -/
theorem mineBlock_at_difficulty_four_never_completes
    (s : BlockchainState) (txs : List Transaction) (now : Int) (fuel : Nat)
    (h : s.difficulty = 4) : mineBlock s txs now fuel = none := by
  cases hg : getLatestBlock s with
  | none => simp [mineBlock, hg]
  | some pb => simp [mineBlock, hg, h, findNonce_difficulty_four]

/-- Witness for C6: the fresh ledger has difficulty 4, and a concrete
mining call on it indeed yields no result. -/
theorem mineBlock_at_difficulty_four_never_completes_witness :
    mineBlock (initialState 0) [] 0 5 = none :=
  mineBlock_at_difficulty_four_never_completes (initialState 0) [] 0 5 rfl

/-- C2.  The claim asserts the hash engine is deterministic and produces a
fixed-length hexadecimal SHA-256 digest string.  Both `calculateHash` and
`generateTransactionHash` evaluate to the constant "[object Object]" on
every input (trivially deterministic), and that string is not a 64-character
hexadecimal digest: the digest half of the claim fails on the code. -/
theorem hash_engine_constant_and_not_hex :
    (∀ (i t : Int) (txs : List Transaction) (p : String) (n : Int),
        calculateHash i t txs p n = "[object Object]") ∧
    (∀ (tx : Transaction) (now : Int),
        generateTransactionHash tx now = "[object Object]") ∧
    isSha256HexString "[object Object]" = false :=
  ⟨fun _ _ _ _ _ => rfl, fun _ _ => rfl, by decide⟩

/-- C3.  The claim asserts that a pending transaction included in a
`mineBlock` call leaves the pool and reappears in the new block with
`blockNumber` set to the block's index.  `mineBlock` does neither: it never
touches `pendingTransactions` and never assigns `blockNumber`.  Observed at
difficulty 0 (the only difficulty at which the proof-of-work loop can
exit): after a successful `mineBlock([poolTx])`, the pool still holds
`poolTx`, and the sealed copy inside the new block (of index 1) still has
`blockNumber = null`. -/
theorem mineBlock_ignores_pool_and_blockNumber :
    (mineBlock poolState [poolTx] 2 1).map
        (fun r => (r.1.pendingTransactions, r.2.index,
          r.2.transactions.map Transaction.blockNumber)) =
      some ([poolTx], 1, [none]) := by
  rfl

/-- C4.  The claim asserts that of two submissions with coinciding computed
hashes only the first is admitted.  In the code, `addTransaction` runs
`isValidTransaction` — including the `transactionExists` duplicate guard —
*before* assigning `transaction.hash`, so the guard always inspects the
still-absent hash field; moreover every computed hash is the constant
"[object Object]".  Two identical admin submissions therefore both succeed,
with equal hashes, and the pool ends up holding both. -/
theorem duplicate_hash_submissions_both_admitted :
    ((createAdminTransaction (initialState 0) "t" "d" "u" "m" "id1" 1).bind fun r1 =>
      (createAdminTransaction r1.1 "t" "d" "u" "m" "id2" 1).map fun r2 =>
        (r1.2.hash, r2.2.hash, r2.1.pendingTransactions.length)) =
      some (some "[object Object]", some "[object Object]", 2) := by
  rfl

/-- C5.  The claim asserts that mutating any field of a non-latest block of
a valid chain makes `isChainValid` false.  Because the recomputed hash is
the constant "[object Object]" — always matching any stored hash produced
by the same engine — editing the transaction payload inside the middle
block of a valid three-block chain leaves `isChainValid` true: the
tampering goes undetected. -/
theorem tamper_goes_undetected :
    isChainValid tamperBaseState = true ∧
    isChainValid tamperedState = true ∧
    tamperedState.chain.length = tamperBaseState.chain.length ∧
    tamperedState.chain[0]? = tamperBaseState.chain[0]? ∧
    tamperedState.chain[1]? ≠ tamperBaseState.chain[1]? ∧
    tamperedState.chain[2]? = tamperBaseState.chain[2]? := by
  refine ⟨rfl, rfl, rfl, rfl, ?_, rfl⟩
  decide

/-- Closed-form evaluation of one `importBlockchain` call: both throws keep
the pre-call state (they precede every assignment in the source), and the
success branch performs the wholesale replacement. -/
theorem importBlockchain_run (d : Snapshot) (s : BlockchainState) :
    (importBlockchain d).run s =
      match d.chain with
      | none => EStateM.Result.error ImportError.invalidFormat s
      | some ch =>
        if linkageOk ch then
          EStateM.Result.ok true
            { s with
              chain := ch
              pendingTransactions := d.pendingTransactions.getD []
              difficulty :=
                match d.difficulty with
                | some dd => if dd ≠ 0 then dd else s.difficulty
                | none => s.difficulty }
        else EStateM.Result.error ImportError.corruptedChain s := by
  cases hdc : d.chain with
  | none => simp only [importBlockchain, hdc]; rfl
  | some ch =>
    cases hl : linkageOk ch with
    | true => simp only [importBlockchain, hdc, hl]; rfl
    | false => simp only [importBlockchain, hdc, hl]; rfl

/-- The linkage loop of `importBlockchain` succeeds exactly when every
adjacent pair of blocks satisfies the `previousHash` link. -/
theorem linkageOk_iff : ∀ (ch : List Block),
    linkageOk ch = true ↔
      ∀ (i : Nat) (a b : Block), ch[i]? = some a → ch[i + 1]? = some b →
        b.previousHash = a.hash
  | [] => by
    simp [linkageOk]
  | [a] => by
    simp only [linkageOk, true_iff]
    intro i x y _ hy
    cases i <;> simp at hy
  | a :: b :: r => by
    have ih := linkageOk_iff (b :: r)
    simp only [linkageOk, Bool.and_eq_true, beq_iff_eq, ih]
    constructor
    · rintro ⟨hab, hrest⟩ i x y hx hy
      cases i with
      | zero =>
        rw [List.getElem?_cons_zero] at hx
        rw [List.getElem?_cons_succ, List.getElem?_cons_zero] at hy
        cases hx; cases hy; exact hab
      | succ j =>
        rw [List.getElem?_cons_succ] at hx
        rw [List.getElem?_cons_succ] at hy
        exact hrest j x y hx hy
    · intro hAll
      refine ⟨hAll 0 a b (by simp) (by simp), fun j x y hx hy => ?_⟩
      exact hAll (j + 1) x y (by rw [List.getElem?_cons_succ]; exact hx)
        (by rw [List.getElem?_cons_succ]; exact hy)

/-- C7.  `importBlockchain` fails with invalid-format exactly when the
snapshot's `chain` field is missing (or not an array, collapsed into
`none`); otherwise it fails with corrupted-chain exactly when some adjacent
pair of imported blocks violates `previousHash` linkage (stored hashes are
never recomputed — a chain with garbage hashes but intact linkage imports
fine); and on success the in-memory chain and pool are replaced wholesale
with the snapshot's contents. -/
theorem importBlockchain_spec (d : Snapshot) (s : BlockchainState) :
    ((∃ s', (importBlockchain d).run s =
        EStateM.Result.error ImportError.invalidFormat s') ↔ d.chain = none) ∧
    (∀ ch, d.chain = some ch →
      ((∃ s', (importBlockchain d).run s =
          EStateM.Result.error ImportError.corruptedChain s') ↔
        ∃ (i : Nat) (a b : Block), ch[i]? = some a ∧ ch[i + 1]? = some b ∧
          b.previousHash ≠ a.hash)) ∧
    (∀ (r : Bool) (s' : BlockchainState),
      (importBlockchain d).run s = EStateM.Result.ok r s' →
      ∃ ch, d.chain = some ch ∧ s'.chain = ch ∧
        s'.pendingTransactions = d.pendingTransactions.getD []) := by
  cases hdc : d.chain with
  | none =>
    have hrun : (importBlockchain d).run s =
        EStateM.Result.error ImportError.invalidFormat s := by
      rw [importBlockchain_run, hdc]
    refine ⟨⟨fun _ => rfl, fun _ => ⟨s, hrun⟩⟩, ?_, ?_⟩
    · intro ch hc
      exact Option.noConfusion hc
    · intro r s' h
      rw [hrun] at h
      exact EStateM.Result.noConfusion h
  | some ch =>
    cases hl : linkageOk ch with
    | true =>
      have hrun : (importBlockchain d).run s = EStateM.Result.ok true
          { s with
            chain := ch
            pendingTransactions := d.pendingTransactions.getD []
            difficulty :=
              match d.difficulty with
              | some dd => if dd ≠ 0 then dd else s.difficulty
              | none => s.difficulty } := by
        rw [importBlockchain_run, hdc]
        simp [hl]
      refine ⟨⟨?_, ?_⟩, ?_, ?_⟩
      · rintro ⟨s', h⟩
        rw [hrun] at h
        exact EStateM.Result.noConfusion h
      · intro h
        exact Option.noConfusion h
      · intro ch' hc'
        injection hc' with hcc
        subst hcc
        constructor
        · rintro ⟨s', h⟩
          rw [hrun] at h
          exact EStateM.Result.noConfusion h
        · rintro ⟨i, a, b, ha, hb, hne⟩
          exact absurd ((linkageOk_iff ch).mp hl i a b ha hb) hne
      · intro r s' h
        rw [hrun] at h
        injection h with hr hs
        subst hs
        exact ⟨ch, rfl, rfl, rfl⟩
    | false =>
      have hrun : (importBlockchain d).run s =
          EStateM.Result.error ImportError.corruptedChain s := by
        rw [importBlockchain_run, hdc]
        simp [hl]
      refine ⟨⟨?_, ?_⟩, ?_, ?_⟩
      · rintro ⟨s', h⟩
        rw [hrun] at h
        injection h with he hs
        exact ImportError.noConfusion he
      · intro h
        exact Option.noConfusion h
      · intro ch' hc'
        injection hc' with hcc
        subst hcc
        constructor
        · intro _
          by_contra hno
          push_neg at hno
          have hTrue : linkageOk ch = true :=
            (linkageOk_iff ch).mpr fun i a b ha hb => hno i a b ha hb
          rw [hTrue] at hl
          exact Bool.noConfusion hl
        · intro _
          exact ⟨s, hrun⟩
      · intro r s' h
        rw [hrun] at h
        exact EStateM.Result.noConfusion h

/-- Witness for C7: a snapshot with no `chain` field is rejected as
invalid-format. -/
theorem importBlockchain_spec_witness :
    ∃ s', (importBlockchain noChainSnapshot).run (initialState 0) =
      EStateM.Result.error ImportError.invalidFormat s' :=
  (importBlockchain_spec noChainSnapshot (initialState 0)).1.mpr rfl

/-- C10.  Whenever `importBlockchain` throws (missing/malformed chain field
or broken linkage), the ledger state is untouched: both throws happen
before any assignment to `this.chain`, `this.pendingTransactions` or
`this.difficulty`. -/
theorem importBlockchain_error_preserves_state
    (d : Snapshot) (s : BlockchainState) (e : ImportError) (s' : BlockchainState)
    (h : (importBlockchain d).run s = EStateM.Result.error e s') :
    s'.chain = s.chain ∧ s'.pendingTransactions = s.pendingTransactions ∧
      s'.difficulty = s.difficulty := by
  rw [importBlockchain_run] at h
  split at h
  · cases h
    exact ⟨rfl, rfl, rfl⟩
  · split at h
    · cases h
    · cases h
      exact ⟨rfl, rfl, rfl⟩

/-- Witness for C10: the fresh ledger is unchanged by a failed import of a
snapshot with no chain field. -/
theorem importBlockchain_error_preserves_state_witness :
    (initialState 0).chain = (initialState 0).chain ∧
      (initialState 0).pendingTransactions = (initialState 0).pendingTransactions ∧
      (initialState 0).difficulty = (initialState 0).difficulty :=
  importBlockchain_error_preserves_state noChainSnapshot (initialState 0)
    ImportError.invalidFormat (initialState 0) rfl

/-! ### C8 -/

/-- C8.  `getTransactionStatus` searches sealed blocks first: if some block
holds a transaction with the queried hash, the result is a `confirmed`
record carrying that block's index, `chain.length - index` confirmations,
and the block's timestamp and hash; otherwise a pool hit yields a `pending`
record with null block number and zero confirmations; otherwise the lookup
reports not-found (`null`). -/
theorem getTransactionStatus_spec (s : BlockchainState) (h : String) :
    ((∃ b ∈ s.chain, ∃ tx ∈ b.transactions, tx.hash = some h) →
      ∃ b ∈ s.chain, (∃ tx ∈ b.transactions, tx.hash = some h) ∧
        getTransactionStatus s h =
          some { status := "confirmed", blockNumber := some b.index,
                 confirmations := (s.chain.length : Int) - b.index,
                 timestamp := b.timestamp, hash := some b.hash }) ∧
    ((¬ ∃ b ∈ s.chain, ∃ tx ∈ b.transactions, tx.hash = some h) →
      ((∃ tx ∈ s.pendingTransactions, tx.hash = some h) →
        ∃ tx ∈ s.pendingTransactions, tx.hash = some h ∧
          getTransactionStatus s h =
            some { status := "pending", blockNumber := none, confirmations := 0,
                   timestamp := tx.timestamp, hash := none }) ∧
      ((¬ ∃ tx ∈ s.pendingTransactions, tx.hash = some h) →
        getTransactionStatus s h = none)) := by
  cases hfb : s.chain.find?
      (fun b => (b.transactions.find? (fun tx => tx.hash == some h)).isSome) with
  | some b =>
    have hmem : b ∈ s.chain := List.mem_of_find?_eq_some hfb
    have hpred := List.find?_some hfb
    have hex : ∃ tx ∈ b.transactions, tx.hash = some h := by
      obtain ⟨tx, htx, hp⟩ := List.find?_isSome.mp hpred
      exact ⟨tx, htx, by simpa using hp⟩
    constructor
    · intro _
      refine ⟨b, hmem, hex, ?_⟩
      simp only [getTransactionStatus, hfb]
    · intro hno
      exact absurd ⟨b, hmem, hex⟩ hno
  | none =>
    have hnoblock := List.find?_eq_none.mp hfb
    constructor
    · rintro ⟨b, hb, tx, htx, hh⟩
      refine absurd ?_ (hnoblock b hb)
      exact List.find?_isSome.mpr ⟨tx, htx, by simp [hh]⟩
    · intro _
      cases hft : s.pendingTransactions.find? (fun tx => tx.hash == some h) with
      | some tx =>
        have hmem : tx ∈ s.pendingTransactions := List.mem_of_find?_eq_some hft
        have hp : tx.hash = some h := by
          have := List.find?_some hft
          simpa using this
        constructor
        · intro _
          exact ⟨tx, hmem, hp, by simp only [getTransactionStatus, hfb, hft]⟩
        · intro hno
          exact absurd ⟨tx, hmem, hp⟩ hno
      | none =>
        constructor
        · rintro ⟨tx, htx, hh⟩
          have := List.find?_eq_none.mp hft tx htx
          simp [hh] at this
        · intro _
          simp only [getTransactionStatus, hfb, hft]

/-- Witness for C8: on a ledger whose pool holds the transaction with hash
"h1" and whose chain is just the genesis block, the lookup reports
`pending` with null block number and zero confirmations. -/
theorem getTransactionStatus_spec_witness :
    getTransactionStatus pendingLookupState "h1" =
      some { status := "pending", blockNumber := none, confirmations := 0,
             timestamp := 1, hash := none } := by
  obtain ⟨tx, htx, hh, heq⟩ :=
    ((getTransactionStatus_spec pendingLookupState "h1").2 (by decide)).1 (by decide)
  have htx' : tx = poolTx := by
    simpa [pendingLookupState] using htx
  subst htx'
  exact heq

/-! ### C9 helper lemmas -/

/-- `addTransaction` never changes the chain. -/
theorem addTransaction_chain_eq {s s' : BlockchainState} {t t' : Transaction} {now : Int}
    (h : addTransaction s t now = some (s', t')) : s'.chain = s.chain := by
  unfold addTransaction at h
  split at h
  · exact Option.noConfusion h
  · injection h with hp
    injection hp with hs ht
    subst hs
    rfl

/-- A successful `mineBlock` appends exactly the returned block. -/
theorem mineBlock_chain_eq {s s' : BlockchainState} {txs : List Transaction}
    {b : Block} {now : Int} {fuel : Nat}
    (h : mineBlock s txs now fuel = some (s', b)) : s'.chain = s.chain ++ [b] := by
  cases hg : getLatestBlock s with
  | none =>
    have hnone : mineBlock s txs now fuel = none := by simp [mineBlock, hg]
    rw [hnone] at h
    exact Option.noConfusion h
  | some pb =>
    cases hf : findNonce (pb.index + 1) now txs pb.hash s.difficulty fuel 0 with
    | none =>
      have hnone : mineBlock s txs now fuel = none := by simp [mineBlock, hg, hf]
      rw [hnone] at h
      exact Option.noConfusion h
    | some p =>
      obtain ⟨nh, n⟩ := p
      have heq : mineBlock s txs now fuel = some
          ({ s with chain := s.chain ++
              [{ index := pb.index + 1, timestamp := now, transactions := txs,
                 previousHash := pb.hash, hash := nh, nonce := n }] },
           { index := pb.index + 1, timestamp := now, transactions := txs,
             previousHash := pb.hash, hash := nh, nonce := n }) := by
        simp [mineBlock, hg, hf]
      rw [heq] at h
      injection h with hp
      injection hp with hs hb
      subst hs
      subst hb
      rfl

/-- A successful import installs exactly the snapshot's chain. -/
theorem importBlockchain_ok_chain {d : Snapshot} {s s' : BlockchainState} {r : Bool}
    (h : (importBlockchain d).run s = EStateM.Result.ok r s') :
    ∃ ch, d.chain = some ch ∧ s'.chain = ch := by
  rw [importBlockchain_run] at h
  split at h
  · exact EStateM.Result.noConfusion h
  · rename_i ch heq
    split at h
    · injection h with hr hs
      subst hs
      exact ⟨ch, heq, rfl⟩
    · exact EStateM.Result.noConfusion h

/-- A failed import keeps the chain. -/
theorem import_error_keeps_chain {d : Snapshot} {s s' : BlockchainState} {e : ImportError}
    (h : (importBlockchain d).run s = EStateM.Result.error e s') : s'.chain = s.chain := by
  rw [importBlockchain_run] at h
  split at h
  · cases h
    rfl
  · split at h
    · exact EStateM.Result.noConfusion h
    · cases h
      rfl

/-! ### C9 -/

/-- C9 counterexample.  The claim says the chain is non-empty in every
reachable state, so that `getLatestBlock` has no failure mode.  But
importing a snapshot whose `chain` field is a present-but-empty array
succeeds (the `!data.chain || !Array.isArray(data.chain)` guard passes —
`[]` is truthy — and the linkage loop is vacuous) and installs the empty
chain, after which `getLatestBlock` returns `undefined`. -/
theorem reachable_empty_chain_no_latest :
    Reachable importedEmptyState ∧ importedEmptyState.chain = [] ∧
      getLatestBlock importedEmptyState = none :=
  ⟨@Reachable.importOk (initialState 0) importedEmptyState emptySnapshot true
      (Reachable.init 0) rfl,
    rfl, rfl⟩

/-- C9 amended.  Restricting imports to snapshots carrying a non-empty
chain array — the minimal restriction forced by the counterexample — the
chain is non-empty in every reachable state and `getLatestBlock` always
returns a block. -/
theorem reachableNE_getLatestBlock_some (s : BlockchainState) (h : ReachableNE s) :
    s.chain ≠ [] ∧ ∃ b, getLatestBlock s = some b := by
  have hne : s.chain ≠ [] := by
    induction h with
    | init now => simp [initialState]
    | addTx hr heq ih =>
      rw [addTransaction_chain_eq heq]
      exact ih
    | mine hr heq ih =>
      rw [mineBlock_chain_eq heq]
      simp
    | cleanup hr ih =>
      exact ih
    | importOk hr hchain hnec hrun ih =>
      obtain ⟨ch2, hch2, hsch⟩ := importBlockchain_ok_chain hrun
      rw [hsch]
      rw [hchain] at hch2
      injection hch2 with hcc
      rw [← hcc]
      exact hnec
    | importErr hr hrun ih =>
      rw [import_error_keeps_chain hrun]
      exact ih
  refine ⟨hne, ?_⟩
  obtain ⟨b, hb⟩ := Option.isSome_iff_exists.mp (List.getLast?_isSome.mpr hne)
  exact ⟨b, hb⟩

/-- Witness for the amended C9: the freshly constructed ledger is reachable
under the restriction and indeed has a latest block. -/
theorem reachableNE_getLatestBlock_some_witness :
    (initialState 0).chain ≠ [] ∧ ∃ b, getLatestBlock (initialState 0) = some b :=
  reachableNE_getLatestBlock_some (initialState 0) (ReachableNE.init 0)
